import Mathlib

/-!
Verification of the `hash_remap` Apache Traffic Server plugin
(src/trafficserver/hash_remap.c) against its natural-language
specification.

Byte strings (`char *` buffers with a length) are modelled as `List Nat`,
each element the unsigned value of one byte (0..255).  Machine 64-bit
arithmetic is modelled on `Nat` with explicit `% 2 ^ 64`.
-/

/-- `FNV1_64_INIT` (hash_remap.c line 174): the FNV-1 64-bit offset basis. -/
def FNV1_64_INIT : Nat := 0xcbf29ce484222325

/-- `FNV_64_PRIME` (hash_remap.c line 177): the FNV 64-bit prime. -/
def FNV_64_PRIME : Nat := 0x100000001b3

/-- The value the C expression `(uint64_t)*buf` produces for a byte `b`.
`buf` has type `char *`, and on the plugin's build targets plain `char`
is signed, so a byte `b ≥ 0x80` is sign-extended: the cast yields
`2 ^ 64 - 256 + b`, not `b`.  For `b < 0x80` the cast yields `b`.
(The outer `% 2 ^ 64` totalises the model; on the byte domain `b < 256`
it is the identity.) -/
def charToUInt64 (b : Nat) : Nat :=
  if b < 128 then b else (2 ^ 64 - 256 + b) % 2 ^ 64

/-- One iteration of the loop body shared by `hash_fnv64` and
`hash_fnv64_continue` (hash_remap.c lines 176-179 and 185-188):
`hval *= FNV_64_PRIME; hval ^= (uint64_t)*buf++;` with 64-bit
wraparound multiplication. -/
def fnvStep (hval b : Nat) : Nat :=
  (hval * FNV_64_PRIME % 2 ^ 64) ^^^ charToUInt64 b

/-- `hash_fnv64` (hash_remap.c lines 173-182): seed the accumulator with
`FNV1_64_INIT` and fold the bytes of `buf` left to right. -/
def hash_fnv64 (buf : List Nat) : Nat :=
  buf.foldl fnvStep FNV1_64_INIT

/-- `hash_fnv64_continue` (hash_remap.c lines 184-189): fold the bytes of
`buf` left to right into a caller-supplied accumulator `hval`. -/
def hash_fnv64_continue (buf : List Nat) (hval : Nat) : Nat :=
  buf.foldl fnvStep hval

/-- The per-byte step as the specification words it: multiply by the
prime modulo `2 ^ 64`, then XOR with the byte's unsigned value
(0..255).  Spec-side definition, for comparison with `fnvStep`. -/
def fnvStepUnsigned (hval b : Nat) : Nat :=
  (hval * FNV_64_PRIME % 2 ^ 64) ^^^ (b % 256)

/-- The hash as the specification describes it: unsigned bytes. -/
def hash_fnv64_unsigned (buf : List Nat) : Nat :=
  buf.foldl fnvStepUnsigned FNV1_64_INIT

/-- `hash_remap_struct` (hash_remap.c lines 74-79).  The `hash` pointer
itself is represented by its allocated capacity `hash_len`; the bytes
the buffer holds during a request are computed per request (see
`doRemapScratch`). -/
structure hash_remap_struct where
  isp_name : List Nat
  isp_name_len : Nat
  hash_len : Nat
deriving Repr, DecidableEq

/-- `TSRemapNewInstance` (hash_remap.c lines 91-113).  `argv` is the
pointer array handed in by the host, an entry being `none` for a NULL
pointer; positions past the end of the array read as NULL.  The code
fails (`return -1`, modelled `none`) iff `argc < 2 || argv[2] == NULL`;
otherwise it populates an instance with `isp_name = argv[2]`,
`isp_name_len = strlen(argv[2])` and
`hash_len = sizeof(uint64_t) * 2 + isp_name_len + 1`. -/
def TSRemapNewInstance (argc : Nat) (argv : List (Option (List Nat))) :
    Option hash_remap_struct :=
  if argc < 2 then none
  else
    match argv.getD 2 none with
    | none => none
    | some s => some ⟨s, s.length, 8 * 2 + s.length + 1⟩

/-- Big-endian lowercase hexadecimal digits of `n`, as printed by
`sprintf`'s `%lx` (natural width, `"0"` for zero, no `0x` prefix).
`fuel` strictly dominates `n`, so the `0` branch is never taken when
called through `hexDigits`. -/
def hexDigitsAux : Nat → Nat → List Char → List Char
  | 0, _, acc => acc
  | fuel + 1, n, acc =>
      if n < 16 then Nat.digitChar n :: acc
      else hexDigitsAux fuel (n / 16) (Nat.digitChar (n % 16) :: acc)

/-- The character sequence `%lx` renders for the value `n`. -/
def hexDigits (n : Nat) : List Char :=
  hexDigitsAux (n + 1) n []

/-- The same rendering as raw bytes (ASCII codes). -/
def hexBytes (n : Nat) : List Nat :=
  (hexDigits n).map Char.toNat

/-- The bytes `sprintf(hash->hash, "%lx.%.*s", hash_value,
hash->isp_name_len, hash->isp_name)` writes, terminator excluded
(hash_remap.c line 152): the hex digits of the digest, a literal `'.'`,
then at most `isp_name_len` bytes of `isp_name`. -/
def sprintfHash (hash_value : Nat) (hash : hash_remap_struct) : List Nat :=
  hexBytes hash_value ++ '.'.toNat :: hash.isp_name.take hash.isp_name_len

/-- The scratch-buffer contents `TSRemapDoRemap` formats for a request
with the given host and path (hash_remap.c lines 148-152): digest of the
host folded with the path, rendered through `sprintfHash`. -/
def doRemapScratch (hash : hash_remap_struct) (host path : List Nat) :
    List Nat :=
  sprintfHash (hash_fnv64_continue path (hash_fnv64 host)) hash

/-- The request state `TSRemapDoRemap` reads (via `TSUrlHostGet` /
`TSUrlPathGet`) and writes (via `TSUrlHostSet`). -/
structure Request where
  host : List Nat
  path : List Nat
deriving Repr, DecidableEq

/-- Return values of `TSRemapDoRemap`. -/
inductive TSRemapStatus where
  | TSREMAP_NO_REMAP
  | TSREMAP_DID_REMAP
deriving Repr, DecidableEq

open TSRemapStatus

/-- `TSRemapDoRemap` (hash_remap.c lines 134-168).  `ih` and `rri` are
`none` for NULL pointers; `setHostOk` is the verdict the external
context returns from `TSUrlHostSet` when it is consulted.  Returns the
status together with the request state after the call (host replaced by
the scratch bytes exactly when the transform succeeds). -/
def TSRemapDoRemap (ih : Option hash_remap_struct) (rri : Option Request)
    (setHostOk : Bool) : TSRemapStatus × Option Request :=
  match ih, rri with
  | some hash, some req =>
      if (doRemapScratch hash req.host req.path).length > hash.hash_len
      then (TSREMAP_NO_REMAP, some req)
      else if setHostOk
      then (TSREMAP_DID_REMAP,
            some { req with host := doRemapScratch hash req.host req.path })
      else (TSREMAP_NO_REMAP, some req)
  | _, _ => (TSREMAP_NO_REMAP, rri)

/-! ### Boundedness of the accumulator and length of the hex rendering -/

/-- The sign-extending cast always produces a value below `2 ^ 64`. -/
theorem charToUInt64_lt (b : Nat) : charToUInt64 b < 2 ^ 64 := by
  unfold charToUInt64
  split
  · omega
  · exact Nat.mod_lt _ (by norm_num)

/-- XOR of two values below `2 ^ n` stays below `2 ^ n`. -/
theorem xor_lt_two_pow {x y n : Nat} (hx : x < 2 ^ n) (hy : y < 2 ^ n) :
    x ^^^ y < 2 ^ n :=
  Nat.bitwise_lt hx hy

/-- Each loop iteration keeps the accumulator below `2 ^ 64`. -/
theorem fnvStep_lt (hval b : Nat) : fnvStep hval b < 2 ^ 64 :=
  xor_lt_two_pow (Nat.mod_lt _ (by norm_num)) (charToUInt64_lt b)

/-- `hash_fnv64_continue` keeps a bounded accumulator bounded. -/
theorem hash_fnv64_continue_lt (buf : List Nat) (hval : Nat)
    (h : hval < 2 ^ 64) : hash_fnv64_continue buf hval < 2 ^ 64 := by
  induction buf generalizing hval with
  | nil => exact h
  | cons b rest ih => exact ih (fnvStep hval b) (fnvStep_lt hval b)

/-- The one-shot hash is below `2 ^ 64`. -/
theorem hash_fnv64_lt (buf : List Nat) : hash_fnv64 buf < 2 ^ 64 :=
  hash_fnv64_continue_lt buf FNV1_64_INIT (by norm_num [FNV1_64_INIT])

/-- `hexDigitsAux` appends at most `k` digits for an input below
`16 ^ k` (with `0 < k`), whatever the fuel. -/
theorem hexDigitsAux_length (fuel : Nat) : ∀ n acc k, 0 < k → n < 16 ^ k →
    (hexDigitsAux fuel n acc).length ≤ k + acc.length := by
  induction fuel with
  | zero => intro n acc k _ _; simp [hexDigitsAux]
  | succ fuel ih =>
      intro n acc k hk hn
      unfold hexDigitsAux
      split
      · simp; omega
      · rename_i hnot
        have hk2 : 2 ≤ k := by
          by_contra hlt
          have hk1 : k = 1 := by omega
          subst hk1
          norm_num at hn
          omega
        have hdiv : n / 16 < 16 ^ (k - 1) := by
          rw [Nat.div_lt_iff_lt_mul (by norm_num)]
          have : 16 ^ (k - 1) * 16 = 16 ^ k := by
            rw [← Nat.pow_succ]
            congr 1
            omega
          omega
        have := ih (n / 16) (Nat.digitChar (n % 16) :: acc) (k - 1)
          (by omega) hdiv
        simp at this ⊢
        omega

/-- A 64-bit value renders as at most 16 hex digits. -/
theorem hexDigits_length_le (n : Nat) (h : n < 2 ^ 64) :
    (hexDigits n).length ≤ 16 := by
  have h16 : n < 16 ^ 16 := by norm_num at h ⊢; omega
  have := hexDigitsAux_length (n + 1) n [] 16 (by norm_num) h16
  simpa [hexDigits] using this

/-- The scratch contents for any request are at most
`16 + 1 + isp_name_len` bytes long (terminator excluded). -/
theorem doRemapScratch_length_le (hash : hash_remap_struct)
    (host path : List Nat) :
    (doRemapScratch hash host path).length ≤ 17 + hash.isp_name_len := by
  unfold doRemapScratch sprintfHash hexBytes
  have hd : (hexDigits (hash_fnv64_continue path (hash_fnv64 host))).length ≤ 16 :=
    hexDigits_length_le _
      (hash_fnv64_continue_lt _ _ (hash_fnv64_lt host))
  have ht : (hash.isp_name.take hash.isp_name_len).length ≤ hash.isp_name_len :=
    List.length_take_le _ _
  simp only [List.length_append, List.length_map, List.length_cons]
  omega

/-- Folding a concatenation equals folding the two pieces in order. -/
theorem hash_fnv64_continue_append (h p : List Nat) (hval : Nat) :
    hash_fnv64_continue (h ++ p) hval =
      hash_fnv64_continue p (hash_fnv64_continue h hval) := by
  simp [hash_fnv64_continue, List.foldl_append]

/-! ### The claims -/

/-- C1: the per-byte step of `hash_fnv64` does NOT XOR the byte's
unsigned value for bytes ≥ 0x80.  At the failing input `[0x80]` the code
(which casts through signed `char`, sign-extending) produces
`(seed * prime % 2 ^ 64) ^^^ (2 ^ 64 - 128)`, while the claimed step —
embodied by `hash_fnv64_unsigned` — produces
`(seed * prime % 2 ^ 64) ^^^ 0x80`; the two digests differ.  On spans of
bytes < 0x80 the two agree, which is why the code's own ASCII test
vector `"www.example" ↦ 0x24d4dc434ba8a1da` still holds. -/
theorem C1_sign_extension_divergence :
    hash_fnv64 [128] =
      (FNV1_64_INIT * FNV_64_PRIME % 2 ^ 64) ^^^ (2 ^ 64 - 128) ∧
    hash_fnv64_unsigned [128] =
      (FNV1_64_INIT * FNV_64_PRIME % 2 ^ 64) ^^^ 128 ∧
    hash_fnv64 [128] ≠ hash_fnv64_unsigned [128] ∧
    hash_fnv64 [119, 119, 119, 46, 101, 120, 97, 109, 112, 108, 101] =
      0x24d4dc434ba8a1da ∧
    hash_fnv64_unsigned [119, 119, 119, 46, 101, 120, 97, 109, 112, 108, 101] =
      0x24d4dc434ba8a1da := by
  refine ⟨by decide, by decide, by decide, by decide, by decide⟩

/-- C2: the scratch buffer is allocated one byte too small.  For the
suffix `"x"` (length 1) construction sets `hash_len = 16 + 1 + 1 = 18`,
which is strictly below the claimed minimum `16 + 1 + 1 + 1 = 19`; and
for the request with empty host and path (digest = the seed, 16 hex
digits) `sprintf` writes `18 + 1 = 19` bytes (terminator included) into
those 18 bytes. -/
theorem C2_capacity_shortfall :
    TSRemapNewInstance 3 [some [102], some [116], some [120]] =
      some ⟨[120], 1, 18⟩ ∧
    18 < 16 + 1 + 1 + 1 ∧
    (doRemapScratch ⟨[120], 1, 18⟩ [] []).length = 18 ∧
    (doRemapScratch ⟨[120], 1, 18⟩ [] []).length + 1 > 18 := by
  refine ⟨by decide, by decide, by decide, by decide⟩

/-- C3 counterexample: construction with an empty (but non-NULL) third
token succeeds and produces an instance, contradicting the claim that an
empty suffix token makes construction fail. -/
theorem C3_empty_suffix_accepted :
    TSRemapNewInstance 3 [some [102], some [116], some []] =
      some ⟨[], 0, 17⟩ := by
  decide

/-- C3 amended: construction fails (no instance) iff `argc < 2` or the
third pointer `argv[2]` is NULL (it is read regardless of `argc`); any
non-NULL third token, the empty string included, yields an instance
populated with that token, its length, and
`hash_len = 16 + length + 1`. -/
theorem C3_construction_amended (argc : Nat)
    (argv : List (Option (List Nat))) :
    ((TSRemapNewInstance argc argv).isSome ↔
        2 ≤ argc ∧ (argv.getD 2 none).isSome) ∧
    ∀ s, 2 ≤ argc → argv.getD 2 none = some s →
      TSRemapNewInstance argc argv = some ⟨s, s.length, 16 + s.length + 1⟩ := by
  constructor
  · by_cases h : argc < 2
    · simp [TSRemapNewInstance, h]
    · rw [TSRemapNewInstance, if_neg h]
      cases hx : argv.getD 2 none with
      | none => simp
      | some s => simp; omega
  · intro s h2 hx
    rw [TSRemapNewInstance, if_neg (by omega), hx]

/-- C3 amended, witness: `argc = 3` with third token `"a"` yields the
instance `⟨"a", 1, 18⟩`. -/
theorem C3_construction_amended_witness :
    TSRemapNewInstance 3 [some [102], some [116], some [97]] =
      some ⟨[97], 1, 18⟩ :=
  (C3_construction_amended 3 [some [102], some [116], some [97]]).2
    [97] (by decide) rfl

/-- C4: hashing a span `h` with the one-shot `hash_fnv64` and then
folding `p` into the result with `hash_fnv64_continue` equals the
one-shot hash of the concatenation `h ++ p`. -/
theorem C4_concatenation_equivalence (h p : List Nat) :
    hash_fnv64_continue p (hash_fnv64 h) = hash_fnv64 (h ++ p) := by
  rw [hash_fnv64, hash_fnv64, ← hash_fnv64_continue, ← hash_fnv64_continue,
    hash_fnv64_continue_append]

/-- C6: the hash of the empty span is the seed `0xcbf29ce484222325`,
whose hex rendering is `"cbf29ce484222325"`, and folding the empty span
into any prior digest leaves it unchanged. -/
theorem C6_empty_span_identity (hval : Nat) :
    hash_fnv64 [] = 0xcbf29ce484222325 ∧
    hexDigits (hash_fnv64 []) = "cbf29ce484222325".toList ∧
    hash_fnv64_continue [] hval = hval :=
  ⟨by decide, by decide, rfl⟩

/-- C10: running the continuation form from an accumulator holding the
seed `FNV1_64_INIT` computes exactly the one-shot `hash_fnv64`: the two
functions share the same per-byte fold. -/
theorem C10_continue_refines_oneshot (buf : List Nat) :
    hash_fnv64_continue buf FNV1_64_INIT = hash_fnv64 buf :=
  rfl

/-- C5: for any instance produced by construction with suffix `suffix`,
the scratch bytes formatted for a request are exactly the lowercase hex
rendering of the one-pass digest of `host ++ path` (host first, no
separator byte inserted, no fixed width, no `0x` prefix), a literal
`'.'`, then the suffix copied byte for byte; and when the external
context accepts the host-set, the transform installs exactly those bytes
as the new host and reports `TSREMAP_DID_REMAP`. -/
theorem C5_output_format (host path fp tp suffix : List Nat)
    (cfg : hash_remap_struct)
    (hc : TSRemapNewInstance 3 [some fp, some tp, some suffix] = some cfg) :
    doRemapScratch cfg host path =
      hexBytes (hash_fnv64 (host ++ path)) ++ '.'.toNat :: suffix ∧
    TSRemapDoRemap (some cfg) (some ⟨host, path⟩) true =
      (TSREMAP_DID_REMAP, some ⟨doRemapScratch cfg host path, path⟩) := by
  rw [TSRemapNewInstance] at hc
  simp only [if_neg (by omega : ¬ (3:Nat) < 2)] at hc
  have hcfg : cfg = ⟨suffix, suffix.length, 8 * 2 + suffix.length + 1⟩ :=
    (Option.some.inj hc).symm
  subst hcfg
  have hdig : hash_fnv64_continue path (hash_fnv64 host) =
      hash_fnv64 (host ++ path) := by
    rw [hash_fnv64, hash_fnv64, ← hash_fnv64_continue, ← hash_fnv64_continue,
      hash_fnv64_continue_append]
  have hlen : (doRemapScratch ⟨suffix, suffix.length, 8 * 2 + suffix.length + 1⟩
      host path).length ≤ 17 + suffix.length :=
    doRemapScratch_length_le _ host path
  refine ⟨?_, ?_⟩
  · rw [doRemapScratch, sprintfHash, hdig]
    simp [List.take_length]
  · have hcond : ¬ (doRemapScratch ⟨suffix, suffix.length, 8 * 2 + suffix.length + 1⟩
        host path).length > 8 * 2 + suffix.length + 1 := by omega
    rw [TSRemapDoRemap]
    simp [hcond]

/-- C5, witness: suffix `"a"`, host `"w"`, path `"/"`. -/
theorem C5_output_format_witness :
    doRemapScratch ⟨[97], 1, 18⟩ [119] [47] =
      hexBytes (hash_fnv64 ([119] ++ [47])) ++ '.'.toNat :: [97] ∧
    TSRemapDoRemap (some ⟨[97], 1, 18⟩) (some ⟨[119], [47]⟩) true =
      (TSREMAP_DID_REMAP, some ⟨doRemapScratch ⟨[97], 1, 18⟩ [119] [47], [47]⟩) :=
  C5_output_format [119] [47] [102] [116] [97] ⟨[97], 1, 18⟩ (by decide)

/-- C7: whenever the external context rejects the host-set operation
(`setHostOk = false`) on a request that reaches it (the capacity check
passed), `TSRemapDoRemap` returns `TSREMAP_NO_REMAP` and the request
state after the call is the one before it: the host is unchanged. -/
theorem C7_host_set_rejected (cfg : hash_remap_struct) (req : Request)
    (h : ¬ (doRemapScratch cfg req.host req.path).length > cfg.hash_len) :
    TSRemapDoRemap (some cfg) (some req) false = (TSREMAP_NO_REMAP, some req) := by
  rw [TSRemapDoRemap, if_neg h]
  simp

/-- C7, witness: instance for suffix `"a"`, empty host and path; the
capacity check passes (18 ≤ 18) and the rejected host-set leaves the
request unchanged. -/
theorem C7_host_set_rejected_witness :
    TSRemapDoRemap (some ⟨[97], 1, 18⟩) (some ⟨[], []⟩) false =
      (TSREMAP_NO_REMAP, some ⟨[], []⟩) :=
  C7_host_set_rejected ⟨[97], 1, 18⟩ ⟨[], []⟩ (by decide)

/-- C8: a NULL instance handle or a NULL request context makes
`TSRemapDoRemap` return `TSREMAP_NO_REMAP` at once, with the request
state exactly as it was passed in (no remap performed). -/
theorem C8_null_pointer_guard (ih : Option hash_remap_struct)
    (rri : Option Request) (ok : Bool) (h : ih = none ∨ rri = none) :
    TSRemapDoRemap ih rri ok = (TSREMAP_NO_REMAP, rri) := by
  rcases h with h | h
  · subst h
    cases rri with
    | none => rfl
    | some r => rfl
  · subst h
    cases ih with
    | none => rfl
    | some c => rfl

/-- C8, witness: both pointers NULL. -/
theorem C8_null_pointer_guard_witness :
    TSRemapDoRemap none none true = (TSREMAP_NO_REMAP, none) :=
  C8_null_pointer_guard none none true (Or.inl rfl)

/-- C9: if the formatted length exceeds the stored scratch capacity
`hash_len`, the transform returns `TSREMAP_NO_REMAP` with the request
untouched (no substitution); and under the §3 sizing invariant
`hash_len ≥ 16 + 1 + isp_name_len + 1` that branch is unreachable — the
formatted length is within capacity even counting the terminator
(`length + 1 ≤ hash_len`), so the write stays inside the buffer. -/
theorem C9_capacity_sanity_check (cfg : hash_remap_struct) (req : Request)
    (ok : Bool) :
    ((doRemapScratch cfg req.host req.path).length > cfg.hash_len →
      TSRemapDoRemap (some cfg) (some req) ok = (TSREMAP_NO_REMAP, some req)) ∧
    (16 + 1 + cfg.isp_name_len + 1 ≤ cfg.hash_len →
      ¬ (doRemapScratch cfg req.host req.path).length > cfg.hash_len ∧
      (doRemapScratch cfg req.host req.path).length + 1 ≤ cfg.hash_len) := by
  have hlen := doRemapScratch_length_le cfg req.host req.path
  refine ⟨fun hgt => ?_, fun hinv => ⟨by omega, by omega⟩⟩
  rw [TSRemapDoRemap, if_pos hgt]

/-- C9, witness: with `hash_len = 0` the overlong format is refused and
nothing is substituted; with the §3-sized `hash_len = 19` for a length-1
suffix the check passes with a byte to spare for the terminator. -/
theorem C9_capacity_sanity_check_witness :
    TSRemapDoRemap (some ⟨[97], 1, 0⟩) (some ⟨[], []⟩) true =
      (TSREMAP_NO_REMAP, some ⟨[], []⟩) ∧
    ¬ (doRemapScratch ⟨[97], 1, 19⟩ [] []).length > 19 ∧
    (doRemapScratch ⟨[97], 1, 19⟩ [] []).length + 1 ≤ 19 :=
  ⟨(C9_capacity_sanity_check ⟨[97], 1, 0⟩ ⟨[], []⟩ true).1 (by decide),
   (C9_capacity_sanity_check ⟨[97], 1, 19⟩ ⟨[], []⟩ true).2 (by decide)⟩
